import Mathlib

/-!
Verification of `semgrep/content_hash_store.py` and `perf/RepositoryTimePerRule.py`.

The Python code is shallowly embedded: pure functions become Lean functions,
fallible operations return `Except PyErr`, and the filesystem / git / hashing
environment is passed explicitly as data.
-/

/-- The Python exception kinds that the embedded code can raise. -/
inductive PyErr where
  | fileNotFound
  | attributeError
  | calledProcessError
  | assertionError
  | keyError
  | typeError
  | indexError
  deriving DecidableEq, Repr

/-- Prefix test on character lists (used for substring containment). -/
def isPrefixL : List Char → List Char → Bool
  | [], _ => true
  | _ :: _, [] => false
  | a :: as, b :: bs => (a == b) && isPrefixL as bs

/-- Substring containment on character lists. -/
def containsL (needle : List Char) : List Char → Bool
  | [] => needle.isEmpty
  | hay@(_ :: t) => isPrefixL needle hay || containsL needle t

/-- Python's `needle in hay` on strings. -/
def strContains (hay needle : String) : Bool :=
  containsL needle.toList hay.toList

namespace ContentHashStore

/-!
## Cache-store state

`ContentHashStore.semgrep_md5_hash` in the source is a two-level dictionary
built by `default_dict_dict_of_list` (imported from `semgrep.util`, which is
not part of this repository snapshot). Modelled from the spec: "an in-memory
two-level mapping from (pattern-set identity, file identity) to an opaque
result payload", with defaultdict semantics — a pattern-set identity that was
never written behaves exactly as an empty inner mapping. We therefore model
the state as a total function returning `Option` payloads.
-/

/-- The in-memory two-level mapping: pattern-set hash → file hash → payload. -/
def Store (α : Type) := String → String → Option α

/-- The empty store (fresh `ContentHashStore` before any write or load). -/
def Store.empty (α : Type) : Store α := fun _ _ => none

/-- Source `contains(self, file_hash, patterns_hash)`:
`file_hash in self.semgrep_md5_hash[patterns_hash]`. -/
def contains (st : Store α) (file_hash patterns_hash : String) : Bool :=
  (st patterns_hash file_hash).isSome

/-- Source `_get(self, file_hash, patterns_hash)`: the entry if `contains`, else
Python `None` (modelled as `Option.none`). -/
def get_entry (st : Store α) (file_hash patterns_hash : String) : Option α :=
  if contains st file_hash patterns_hash then st patterns_hash file_hash
  else none

/-- Source `save_entry(self, file_hash, patterns_hash, contents)`:
`self.semgrep_md5_hash[patterns_hash][file_hash] = contents`. -/
def save_entry (st : Store α) (file_hash patterns_hash : String) (contents : α) :
    Store α :=
  fun p f =>
    if p = patterns_hash ∧ f = file_hash then some contents else st p f

/-- Source `load_entry(self, file_hash, patterns_hash)`: `return self._get(...)`. -/
def load_entry (st : Store α) (file_hash patterns_hash : String) : Option α :=
  get_entry st file_hash patterns_hash

/-!
## Disk state, `load` and `flush`

The only disk state the store touches is the single cache file at
`cache_path` inside `cache_dir`. `load` is `pickle.load(open(cache_path,
'rb'))`: `open(..., 'rb')` raises `FileNotFoundError` when the file does not
exist. `flush` is `open(cache_path, 'wb')` + `pickle.dump`: opening for
writing creates the file, but only if the parent directory exists — there is
no `os.makedirs` anywhere in the source, so a missing directory raises
`FileNotFoundError`. Pickle serialisation/deserialisation of the mapping is
modelled as the identity on the mapping (the blob *is* the mapping).
-/

/-- The filesystem as the store sees it: whether the cache directory exists,
and the contents of the cache file, if present. -/
structure FS (α : Type) where
  dirExists : Bool
  file : Option (Store α)

/-- Source `load(self)`: `self.semgrep_md5_hash = pickle.load(open(self.cache_path,
'rb'))`. Returns the mapping read from disk; raises when the file is
missing. -/
def load (fs : FS α) : Except PyErr (Store α) :=
  match fs.file with
  | some m => Except.ok m
  | none => Except.error PyErr.fileNotFound

/-- Source `flush(self)`: `open(self.cache_path, 'wb')` then `pickle.dump`. Writes
the whole in-memory mapping; raises when the cache directory is missing. -/
def flush (st : Store α) (fs : FS α) : Except PyErr (FS α) :=
  if fs.dirExists then Except.ok ⟨true, some st⟩
  else Except.error PyErr.fileNotFound

/-!
## Cache-path configuration

Module constant `MD5_CACHE_DIR = "/tmp/semgrep-cache/"` and class attributes
`cache_name`, `cache_dir`, `cache_path` (the latter via `os.path.join`). The
environment is passed as an explicit parameter to show what the code does
with it: nothing — no `os.environ` lookup appears anywhere in the source.
-/

/-- Source `MD5_CACHE_DIR = "/tmp/semgrep-cache/"`. -/
def MD5_CACHE_DIR : String := "/tmp/semgrep-cache/"

/-- Source `cache_name = "cache.pickle"`. -/
def cache_name : String := "cache.pickle"

/-- Source `cache_dir = MD5_CACHE_DIR`, as a function of the process environment
(the value of a hypothetical override variable): the source consults no
environment variable, so the parameter is ignored. -/
def cache_dir_env (_env : Option String) : String := MD5_CACHE_DIR

/-- Source `os.path.join(a, b)` for the cases arising here: `b` absolute replaces,
otherwise join with a separator unless `a` already ends in one. -/
def os_path_join (a b : String) : String :=
  if b.toList.head? = some '/' then b
  else if a.toList.getLast? = some '/' ∨ a = "" then a ++ b
  else a ++ "/" ++ b

/-- Source `cache_path = os.path.join(cache_dir, cache_name)`. -/
def cache_path_env (env : Option String) : String :=
  os_path_join (cache_dir_env env) cache_name

/-- The spec's words for the directory resolution, for comparison: "taken
from an environment-supplied override when that variable is set and
non-empty, and otherwise from a fixed default path". -/
def cache_dir_spec (env : Option String) : String :=
  match env with
  | some s => if s = "" then MD5_CACHE_DIR else s
  | none => MD5_CACHE_DIR

/-!
## Identity resolution: `git_hash`, `git_hashes`, `md5_hash`, `grouper`

The external world these classmethods consult — git's object store, the
on-disk files, and `hashlib.md5` — is passed as an explicit environment.
`git rev-parse HEAD:f` succeeds with the blob hash when `f` is tracked in
`HEAD`, and otherwise exits non-zero (so `subprocess.check_output` raises
`CalledProcessError`).
-/

/-- The environment of the identity resolver. `tracked f` is the blob hash
git prints for `HEAD:f` when `f` is tracked in HEAD; `content f` is the byte
content of the file at path `f`; `md5hex` is `hashlib.md5(...).hexdigest()`
as a function of the hashed bytes. -/
structure GitEnv where
  tracked : String → Option String
  existsOnDisk : String → Bool
  content : String → List Nat
  md5hex : List Nat → String

/-- Source `md5_hash(cls, fname)`: streams the file in 4096-byte chunks through an
md5 object; feeding the chunks in order digests exactly the whole content,
so this equals the digest of the full byte content. -/
def md5_hash (env : GitEnv) (fname : String) : String :=
  env.md5hex (env.content fname)

/-- The error text `git_hash`/`git_hashes` look for. -/
def notInHeadMsg : String := "exists on disk, but not in 'HEAD'"

/-- Python's `repr` of a list of strings (each rendered single-quoted, as
`repr` does for strings containing no quote or backslash — true of every
path used here). -/
def pyStrListRepr (l : List String) : String :=
  "[" ++ String.intercalate ", " (l.map (fun s => "'" ++ s ++ "'")) ++ "]"

/-- Source `str(ex)` for `ex : subprocess.CalledProcessError`: Python renders only
the command and the exit status — the process's stderr (where git prints
"fatal: path ... exists on disk, but not in 'HEAD'") is NOT captured by
`check_output` and does not appear here. -/
def calledProcessErrorStr (args : List String) : String :=
  "Command '" ++ pyStrListRepr args ++ "' returned non-zero exit status 128."

/-- Source `ex.message` for `ex : subprocess.CalledProcessError`: Python 3
exceptions define no attribute `message`, so the attribute lookup itself
raises `AttributeError`; there is no value to return. -/
def calledProcessError_message : Option String := none

/-- Source `git_hash(cls, fname)`: run `git rev-parse HEAD:fname`; on success strip
and length-check the hash; on `CalledProcessError` evaluate `ex.message`
(which raises `AttributeError`) and, were a message available, fall back to
`md5_hash` when it mentions `notInHeadMsg`, else re-raise. -/
def git_hash (env : GitEnv) (fname : String) : Except PyErr String :=
  match env.tracked fname with
  | some h =>
    if h.length = 41 ∨ h.length = 40 then Except.ok h
    else Except.error PyErr.assertionError
  | none =>
    match calledProcessError_message with
    | none => Except.error PyErr.attributeError
    | some msg =>
      if strContains msg notInHeadMsg then Except.ok (md5_hash env fname)
      else Except.error PyErr.calledProcessError

/-- Source `grouper(n, iterable)`: repeatedly slice off the next `n` elements;
stop when the slice comes back empty. -/
def grouper (n : Nat) (l : List α) : List (List α) :=
  if h : (l.take n).isEmpty then []
  else l.take n :: grouper n (l.drop n)
termination_by l.length
decreasing_by
  cases l with
  | nil => simp at h
  | cons a t =>
    cases n with
    | zero => simp at h
    | succ m =>
      simp only [List.length_drop, List.length_cons]
      omega

/-- One batch of `git_hashes`: issue `git rev-parse HEAD:f1 ... HEAD:fk`.
If every path is tracked, git prints one hash per path and the batch yields
`zip(fnames_block, hashes)`. Otherwise `check_output` raises
`CalledProcessError`; the source tests the fallback message against
`str(ex)` — which contains only the rendered command and exit status — and
on a match md5-hashes *every* path of the block, else re-raises. -/
def git_hashes_block (env : GitEnv) (block : List String) :
    Except PyErr (List (String × String)) :=
  if block.all (fun f => (env.tracked f).isSome) then
    Except.ok (block.zip (block.map (fun f => (env.tracked f).getD "")))
  else
    let args := ["/usr/bin/git", "rev-parse"] ++ block.map (fun f => "HEAD:" ++ f)
    if strContains (calledProcessErrorStr args) notInHeadMsg then
      Except.ok (block.map (fun f => (f, md5_hash env f)))
    else Except.error PyErr.calledProcessError

/-- Consume the `git_hashes` generator over a list of blocks: the pairs
yielded before any failure, and the exception that terminated consumption,
if one did. -/
def git_hashes_go (env : GitEnv) : List (List String) →
    List (String × String) × Option PyErr
  | [] => ([], none)
  | b :: bs =>
    match git_hashes_block env b with
    | Except.ok pairs =>
      let rest := git_hashes_go env bs
      (pairs ++ rest.1, rest.2)
    | Except.error e => ([], some e)

/-- Source `git_hashes(cls, fnames)` as seen by a consumer that drains the
generator: batch with `grouper n` and process each batch in order. The
source fixes `n = 128*64`; the batch size appears as a parameter so that
statements can quantify over it. -/
def git_hashes (env : GitEnv) (n : Nat) (fnames : List String) :
    List (String × String) × Option PyErr :=
  git_hashes_go env (grouper n fnames)

/-- The batch size hard-coded in the source (`128*64`). -/
def ARGMAX : Nat := 128 * 64

end ContentHashStore

/-!
## The timing aggregator: `perf/RepositoryTimePerRule.py`

JSON values are embedded as `JVal` (numbers as rationals; the structural
claims verified here — which rules are tallied, target counts — do not
depend on float rounding). Python dictionaries are embedded as
insertion-ordered association lists with unique keys, which is exactly the
observable behaviour of a `dict` built by sequential assignment.
-/

/-- A decoded JSON value (the result of `json.loads`). -/
inductive JVal where
  | jnull
  | jbool (b : Bool)
  | jnum (q : Rat)
  | jstr (s : String)
  | jarr (elems : List JVal)
  | jobj (fields : List (String × JVal))

/-- Lookup in an insertion-ordered association list (`d[k]` read). -/
def lookupA (l : List (String × β)) (k : String) : Option β :=
  match l with
  | [] => none
  | (k', v) :: t => if k' = k then some v else lookupA t k

/-- Source `d[k] = v` on a Python dict: update in place if the key exists,
else append. -/
def updA (l : List (String × β)) (k : String) (v : β) : List (String × β) :=
  match l with
  | [] => [(k, v)]
  | (k', v') :: t => if k' = k then (k, v) :: t else (k', v') :: updA t k v

/-- Source `d[k]` read on a `defaultdict` immediately overwritten: the current
value when the key exists, else the factory default. -/
def getDA (l : List (String × β)) (k : String) (d : β) : β :=
  (lookupA l k).getD d

/-- Source `TotalTimeAndTargetNum.__init__` defaults. -/
structure TotalTimeAndTargetNum where
  total_rule_time : Rat
  num_targets : Int
  deriving DecidableEq, Repr

/-- Source `TotalTimeAndTargetNum.__add__`. -/
def TotalTimeAndTargetNum.add (a b : TotalTimeAndTargetNum) :
    TotalTimeAndTargetNum :=
  ⟨a.total_rule_time + b.total_rule_time, a.num_targets + b.num_targets⟩

/-- Source `TotalTimeAndTargetNum.return_average`:
`self.total_rule_time/self.num_targets`. In Python this raises
`ZeroDivisionError` when `num_targets = 0`; the theorems below show every
tallied entry has `num_targets ≥ 1`, so the division is always defined. -/
def TotalTimeAndTargetNum.return_average (t : TotalTimeAndTargetNum) : Rat :=
  t.total_rule_time / (t.num_targets : Rat)

/-- Source `class RepositoryTimePerRule` state. -/
structure RepositoryTimePerRule where
  output_file : String
  repo_to_times_per_rule : List (String × List (String × Rat))
  rules_to_total_time_num_files : List (String × TotalTimeAndTargetNum)

/-- A freshly constructed `RepositoryTimePerRule(output_file)` (both dict
arguments left at their empty defaults). -/
def RepositoryTimePerRule.init (output_file : String) : RepositoryTimePerRule :=
  ⟨output_file, [], []⟩

/-- Source `j[k]` for a decoded JSON value: key lookup on an object (`KeyError`
when absent), `TypeError` on every non-dict (Python rejects string
subscripts on lists, strings, numbers, booleans and `None`). -/
def jget (j : JVal) (k : String) : Except PyErr JVal :=
  match j with
  | JVal.jobj fields =>
    match lookupA fields k with
    | some v => Except.ok v
    | none => Except.error PyErr.keyError
  | _ => Except.error PyErr.typeError

/-- Python's `k in j` for a string `k`: key membership on a dict, element
membership on a list, substring test on a string, `TypeError` otherwise. -/
def pyInStr (k : String) (j : JVal) : Except PyErr Bool :=
  match j with
  | JVal.jobj fields => Except.ok (fields.any (fun kv => kv.1 == k))
  | JVal.jarr elems =>
    Except.ok (elems.any (fun e =>
      match e with
      | JVal.jstr s => s == k
      | _ => false))
  | JVal.jstr s => Except.ok (strContains s k)
  | _ => Except.error PyErr.typeError

/-- Source `for x in j`: the elements of a list, the keys of a dict, the characters
of a string; `TypeError` on non-iterables. -/
def jiter (j : JVal) : Except PyErr (List JVal) :=
  match j with
  | JVal.jarr elems => Except.ok elems
  | JVal.jobj fields => Except.ok (fields.map (fun kv => JVal.jstr kv.1))
  | JVal.jstr s => Except.ok (s.toList.map (fun c => JVal.jstr (String.singleton c)))
  | _ => Except.error PyErr.typeError

/-- A rule identifier, used as a dict key and report key. Semgrep timing
reports carry rule ids as JSON strings; non-string values are rejected
here. -/
def jAsStr (j : JVal) : Except PyErr String :=
  match j with
  | JVal.jstr s => Except.ok s
  | _ => Except.error PyErr.typeError

/-- A parse time, as used in `parse_time > 0` and `add`: numbers are taken
as-is, booleans coerce to 0/1 (Python `bool` is an `int`), and every other
value raises `TypeError` when ordered against `0`. -/
def jAsRat (j : JVal) : Except PyErr Rat :=
  match j with
  | JVal.jnum q => Except.ok q
  | JVal.jbool b => Except.ok (if b then 1 else 0)
  | _ => Except.error PyErr.typeError

/-- Stable insert for an ascending sort: place `a` after every element `b`
with `le b a` (so later-coming equals stay behind earlier ones, as in
Python's stable `sorted`). -/
def insertAfterLe (le : α → α → Bool) (a : α) : List α → List α
  | [] => [a]
  | b :: bs => if le b a then b :: insertAfterLe le a bs else a :: b :: bs

/-- Python's stable `sorted(l, key=...)`, with `le x y` meaning "`x`'s key
is at most `y`'s key": elements are inserted left to right, each after its
equals. -/
def pySorted (le : α → α → Bool) (l : List α) : List α :=
  l.foldl (fun acc a => insertAfterLe le a acc) []

/-- Source `sorted(d.items(), key=lambda item: -item[1])` then `dict(...)`:
descending stable sort of the pairs by value. -/
def sortPairsDesc (l : List (String × Rat)) : List (String × Rat) :=
  pySorted (fun p q => decide (q.2 ≤ p.2)) l

/-- Source `target['parse_times']` read and elementwise coerced as the loop does. -/
def extract_target_pts (t : JVal) : Except PyErr (List Rat) := do
  let ptsJ ← jget t "parse_times"
  let elems ← jiter ptsJ
  elems.mapM jAsRat

/-- The inner loop `for idx, parse_time in enumerate(target['parse_times'])`:
positive entries are tallied under `rule_ids[idx]` (the index is only
resolved — and can only raise `IndexError` — when the entry is positive). -/
def tallyPos (rule_ids : List String) :
    Nat → List Rat → List (String × TotalTimeAndTargetNum) →
      Except PyErr (List (String × TotalTimeAndTargetNum))
  | _, [], nz => Except.ok nz
  | idx, pt :: rest, nz =>
    if 0 < pt then
      match rule_ids[idx]? with
      | none => Except.error PyErr.indexError
      | some rid =>
        tallyPos rule_ids (idx + 1) rest
          (updA nz rid ((getDA nz rid ⟨0, 0⟩).add ⟨pt, 1⟩))
    else tallyPos rule_ids (idx + 1) rest nz

/-- The loop `for target in times_per_file['time']['targets']`: accumulate
the truncating elementwise sum `map(add, parse_times, total)` and the
zero-free per-rule tally. -/
def processTargets (rule_ids : List String) :
    List JVal → List Rat × List (String × TotalTimeAndTargetNum) →
      Except PyErr (List Rat × List (String × TotalTimeAndTargetNum))
  | [], acc => Except.ok acc
  | t :: ts, (total, nz) => do
    let pts ← extract_target_pts t
    let total' := List.zipWith (· + ·) pts total
    let nz' ← tallyPos rule_ids 0 pts nz
    processTargets rule_ids ts (total', nz')

/-- Source `times_per_file['time']['rules']`, each element's `['id']`. -/
def extract_rule_ids (tpf : JVal) : Except PyErr (List String) := do
  let timeJ ← jget tpf "time"
  let ruleElems ← jiter (← jget timeJ "rules")
  ruleElems.mapM (fun r => do jAsStr (← jget r "id"))

/-- Source `times_per_file['time']['targets']` as a list of targets. -/
def extract_targets (tpf : JVal) : Except PyErr (List JVal) := do
  let timeJ ← jget tpf "time"
  jiter (← jget timeJ "targets")

/-- The closing loop of `times_per_file_to_times_per_rule`: each entry of
the zero-free per-repository tally is added onto the global
`rules_to_total_time_num_files` (a `defaultdict` read followed by `+` and
assignment). -/
def mergeTally (rt nz : List (String × TotalTimeAndTargetNum)) :
    List (String × TotalTimeAndTargetNum) :=
  nz.foldl (fun rt p => updA rt p.1 ((getDA rt p.1 ⟨0, 0⟩).add p.2)) rt

/-- The body of `times_per_file_to_times_per_rule` after the two guard
checks: build `rule_ids`, fold the targets, record the repository's sorted
per-rule totals, and merge the zero-free tally into the global
`rules_to_total_time_num_files`. -/
def agg_body (st : RepositoryTimePerRule) (repo_name : String) (tpf : JVal) :
    Except PyErr RepositoryTimePerRule := do
  let rule_ids ← extract_rule_ids tpf
  let targets ← extract_targets tpf
  let acc ← processTargets rule_ids targets
    (List.replicate rule_ids.length 0, [])
  let current_repo_times :=
    (rule_ids.zip acc.1).foldl (fun d kv => updA d kv.1 kv.2) []
  let repo' := updA st.repo_to_times_per_rule repo_name
    (sortPairsDesc current_repo_times)
  pure ⟨st.output_file, repo',
    mergeTally st.rules_to_total_time_num_files acc.2⟩

/-- The outcome of one `times_per_file_to_times_per_rule` call: a normal
return with the new state, a `sys.exit` with a printed diagnostic, or an
uncaught exception. -/
inductive ProcResult where
  | ok (st : RepositoryTimePerRule)
  | exited (code : Nat) (msg : String)
  | raised (e : PyErr)

/-- Source `times_per_file_to_times_per_rule(self, repo_name, times_per_file_bytes)`.
The argument is the outcome of `json.loads(times_per_file_bytes.decode(
'utf-8'))`: `none` when decoding raised `UnicodeDecodeError`/`ValueError`,
otherwise the decoded value. -/
def RepositoryTimePerRule.times_per_file_to_times_per_rule
    (st : RepositoryTimePerRule) (repo_name : String)
    (decoded : Option JVal) : ProcResult :=
  match decoded with
  | none => ProcResult.exited 1 "Unable to decode the Semgrep result as JSON."
  | some tpf =>
    match pyInStr "time" tpf with
    | Except.error e => ProcResult.raised e
    | Except.ok false =>
      ProcResult.exited 1
        "Semgrep-core ran without the --time flag, please try again with --time set to true."
    | Except.ok true =>
      match agg_body st repo_name tpf with
      | Except.ok st' => ProcResult.ok st'
      | Except.error e => ProcResult.raised e

/-- Source `_calculate_time_per_rule(self)` (the Lean name drops the leading
underscore): per-rule averages of the global tally, sorted descending. -/
def RepositoryTimePerRule.calculate_time_per_rule
    (st : RepositoryTimePerRule) : List (String × Rat) :=
  sortPairsDesc
    (st.rules_to_total_time_num_files.map
      (fun kv => (kv.1, kv.2.return_average)))

/-- The document `print_repo_to_times_per_rule(self)` serialises to
`output_file`. -/
def RepositoryTimePerRule.print_repo_to_times_per_rule
    (st : RepositoryTimePerRule) : JVal :=
  JVal.jobj
    [("repository_to_times_per_rule",
      JVal.jobj (st.repo_to_times_per_rule.map
        (fun r => (r.1, JVal.jobj (r.2.map (fun p => (p.1, JVal.jnum p.2))))))),
     ("time_per_rule_average",
      JVal.jobj ((st.calculate_time_per_rule).map
        (fun p => (p.1, JVal.jnum p.2))))]

/-- A sequence of aggregator calls, one per analysed repository; `none` as
soon as one call does not return normally (a `sys.exit` or an exception
ends the process). -/
def runReports (st : RepositoryTimePerRule) :
    List (String × Option JVal) → Option RepositoryTimePerRule
  | [] => some st
  | (repo, inp) :: rest =>
    match st.times_per_file_to_times_per_rule repo inp with
    | ProcResult.ok st' => runReports st' rest
    | _ => none

/-- Rule `r` receives a strictly positive duration in one of `targets`:
some target's `parse_times` has a positive entry at an index whose
`rule_ids` entry is `r`. -/
def TargetsHavePositive (rule_ids : List String) (targets : List JVal)
    (r : String) : Prop :=
  ∃ t ∈ targets, ∃ pts, extract_target_pts t = Except.ok pts ∧
    ∃ (idx : Nat) (pt : Rat), pts[idx]? = some pt ∧ 0 < pt ∧
      rule_ids[idx]? = some r

/-- Rule `r` receives a strictly positive duration somewhere in a decoded
timing report. -/
def ReportHasPositive (r : String) (decoded : Option JVal) : Prop :=
  ∃ tpf, decoded = some tpf ∧
    ∃ rule_ids targets, extract_rule_ids tpf = Except.ok rule_ids ∧
      extract_targets tpf = Except.ok targets ∧
      TargetsHavePositive rule_ids targets r

/-!
## Claim C1 — save then contains/load_entry
-/

open ContentHashStore in
/-- C1: for every store, file identity, pattern-set identity and payload,
after `save_entry(file_id, pattern_set_id, payload)` the pair is
`contains` and `load_entry` returns exactly that payload; since this holds
from every starting store, the most recent save for a pair overwrites any
earlier one. -/
theorem C1_save_entry_contains_load (st : Store α) (f p : String) (c : α) :
    contains (save_entry st f p c) f p = true ∧
    load_entry (save_entry st f p c) f p = some c := by
  constructor <;>
    simp [contains, save_entry, load_entry, get_entry]

/-!
## Claim C7 — absent pairs: pure read, sentinel result
-/

open ContentHashStore in
/-- C7: for a pair with no stored entry — including a pattern-set identity
that was never written, which behaves as an empty inner mapping —
`load_entry` returns the absent sentinel (`none`, Python's `None`) rather
than raising. It is a function of the in-memory `Store` alone: it takes no
`FS` argument and returns no modified store, i.e. it touches no disk state
and leaves the mapping unchanged. -/
theorem C7_load_entry_absent (st : ContentHashStore.Store α) (f p : String)
    (h : ContentHashStore.contains st f p = false) :
    ContentHashStore.load_entry st f p = none := by
  simp [ContentHashStore.load_entry, ContentHashStore.get_entry, h]

open ContentHashStore in
/-- Witness for C7 at a concrete store: the empty store on a never-seen
pattern-set identity. -/
theorem C7_witness :
    ContentHashStore.contains (Store.empty Nat) "filehash" "patternhash" = false ∧
    ContentHashStore.load_entry (Store.empty Nat) "filehash" "patternhash" = none :=
  ⟨rfl, C7_load_entry_absent (Store.empty Nat) "filehash" "patternhash" rfl⟩

/-!
## Claim C2 — flush / load round-trip
-/

open ContentHashStore in
/-- C2: for every populated in-memory store, `flush()` (which succeeds
whenever the cache directory exists) followed by `load()` on a fresh
instance reproduces an equivalent mapping: the loaded store agrees with
the flushed one on `contains` and `load_entry` at every
(pattern-set identity, file identity) pair. -/
theorem C2_flush_load_roundtrip (st : Store α) (fs : FS α)
    (h : fs.dirExists = true) :
    ∃ fs' st', flush st fs = Except.ok fs' ∧ load fs' = Except.ok st' ∧
      ∀ f p, contains st' f p = contains st f p ∧
        load_entry st' f p = load_entry st f p := by
  refine ⟨⟨true, some st⟩, st, ?_, rfl, fun f p => ⟨rfl, rfl⟩⟩
  simp [flush, h]

open ContentHashStore in
/-- Witness for C2: a one-entry store flushed into an existing cache
directory. -/
theorem C2_witness :
    ∃ fs' st',
      flush (save_entry (Store.empty Nat) "f" "p" 7) (⟨true, none⟩ : FS Nat) =
        Except.ok fs' ∧
      load fs' = Except.ok st' ∧
      ∀ f p,
        contains st' f p = contains (save_entry (Store.empty Nat) "f" "p" 7) f p ∧
        load_entry st' f p =
          load_entry (save_entry (Store.empty Nat) "f" "p" 7) f p :=
  C2_flush_load_roundtrip (save_entry (Store.empty Nat) "f" "p" 7)
    ⟨true, none⟩ rfl

/-!
## Claim C3 — first-run behaviour

The source guards neither `open(self.cache_path, 'rb')` in `load` nor the
parent directory in `flush` (there is no `os.makedirs`), so the claimed
first-run behaviour fails.
-/

open ContentHashStore in
/-- C3 counterexample: against a nonexistent cache path, `load()` raises
`FileNotFoundError` (the claim says it must not raise), and `flush()` also
raises instead of creating the cache directory. -/
theorem C3_counterexample :
    load (⟨false, none⟩ : FS Nat) = Except.error PyErr.fileNotFound ∧
    flush (Store.empty Nat) (⟨false, none⟩ : FS Nat) =
      Except.error PyErr.fileNotFound :=
  ⟨rfl, rfl⟩

open ContentHashStore in
/-- C3 amended: when the cache file does not exist, `load()` raises
`FileNotFoundError` (leaving the in-memory mapping untouched, since the
assignment never runs); `flush()` never creates the cache directory — it
raises when the directory is absent, and creates/overwrites only the cache
file when the directory already exists. -/
theorem C3_amended_first_run (st : Store α) (fs : FS α) :
    (fs.file = none → load fs = Except.error PyErr.fileNotFound) ∧
    (fs.dirExists = false → flush st fs = Except.error PyErr.fileNotFound) ∧
    (fs.dirExists = true → flush st fs = Except.ok ⟨true, some st⟩) := by
  refine ⟨fun h => ?_, fun h => ?_, fun h => ?_⟩ <;>
    simp [load, flush, h]

open ContentHashStore in
/-- Witness for C3 (amended) at concrete filesystem states: a missing file
makes `load` raise, a missing directory makes `flush` raise, and an
existing directory lets `flush` write the file. -/
theorem C3_amended_witness :
    load (⟨false, none⟩ : FS Nat) = Except.error PyErr.fileNotFound ∧
    flush (Store.empty Nat) (⟨false, none⟩ : FS Nat) =
      Except.error PyErr.fileNotFound ∧
    flush (Store.empty Nat) (⟨true, none⟩ : FS Nat) =
      Except.ok ⟨true, some (Store.empty Nat)⟩ :=
  ⟨(C3_amended_first_run (Store.empty Nat) ⟨false, none⟩).1 rfl,
   (C3_amended_first_run (Store.empty Nat) ⟨false, none⟩).2.1 rfl,
   (C3_amended_first_run (Store.empty Nat) ⟨true, none⟩).2.2 rfl⟩

/-!
## Claim C8 — cache-directory resolution
-/

open ContentHashStore in
/-- C8 counterexample: the claim says a set, non-empty environment override
determines the cache directory; but with the override set to `/custom/`
the code still resolves the fixed constant — no environment variable is
consulted anywhere in the source. -/
theorem C8_counterexample :
    cache_dir_env (some "/custom/") ≠ "/custom/" ∧
    cache_dir_env (some "/custom/") ≠ cache_dir_spec (some "/custom/") := by
  constructor <;> decide

open ContentHashStore in
/-- C8 amended: the cache directory is the fixed constant
`/tmp/semgrep-cache/` regardless of the environment, resolved once when
the class body is evaluated (not per call); the persisted cache is the
single deterministically named file `cache.pickle` joined inside that
directory. -/
theorem C8_amended_fixed_cache_path (env : Option String) :
    cache_dir_env env = MD5_CACHE_DIR ∧
    cache_path_env env = "/tmp/semgrep-cache/cache.pickle" :=
  ⟨rfl, rfl⟩

/-!
## Claims C4, C5, C6 — identity resolution

Concrete environments: `envA` has one tracked file (`a.py`) and one file
that exists on disk but is untracked (`b.py`); `envB` has two tracked
files.
-/

/-- A repository state with `a.py` tracked in HEAD and `b.py` present on
disk but untracked. -/
def envA : ContentHashStore.GitEnv where
  tracked := fun f =>
    if f = "a.py" then some "aaaaaaaaaaaaaaaaaaaaaaaaaaaaaaaaaaaaaaaa"
    else none
  existsOnDisk := fun _ => true
  content := fun _ => []
  md5hex := fun _ => "d41d8cd98f00b204e9800998ecf8427e"

/-- A repository state with both `a.py` and `c.py` tracked in HEAD. -/
def envB : ContentHashStore.GitEnv where
  tracked := fun f =>
    if f = "a.py" then some "aaaaaaaaaaaaaaaaaaaaaaaaaaaaaaaaaaaaaaaa"
    else if f = "c.py" then some "cccccccccccccccccccccccccccccccccccccccc"
    else none
  existsOnDisk := fun _ => true
  content := fun _ => []
  md5hex := fun _ => "d41d8cd98f00b204e9800998ecf8427e"

/-- Zipping a list with its own image is mapping into pairs. -/
theorem zip_map_self (g : α → β) :
    ∀ l : List α, l.zip (l.map g) = l.map (fun a => (a, g a))
  | [] => rfl
  | a :: t => by simp [zip_map_self g t]

open ContentHashStore in
/-- When every path of a batch is tracked, the batch query succeeds and
pairs each path with its git identity. -/
theorem git_hashes_block_all_tracked (env : GitEnv) (block : List String)
    (h : ∀ f ∈ block, (env.tracked f).isSome) :
    git_hashes_block env block =
      Except.ok (block.map (fun f => (f, (env.tracked f).getD ""))) := by
  unfold git_hashes_block
  rw [if_pos, zip_map_self]
  exact List.all_eq_true.mpr h

open ContentHashStore in
/-- Draining `git_hashes` when every input path is tracked: every file is
yielded, in input order, with its git identity, for every batch size ≥ 1 —
the result does not depend on the batch size. -/
theorem git_hashes_all_tracked (env : GitEnv) (n : Nat) (h1 : 1 ≤ n) :
    ∀ fnames : List String, (∀ f ∈ fnames, (env.tracked f).isSome) →
      git_hashes env n fnames =
        (fnames.map (fun f => (f, (env.tracked f).getD "")), none) := by
  have main : ∀ (k : Nat) (fnames : List String), fnames.length ≤ k →
      (∀ f ∈ fnames, (env.tracked f).isSome) →
      git_hashes env n fnames =
        (fnames.map (fun f => (f, (env.tracked f).getD "")), none) := by
    intro k
    induction k with
    | zero =>
      intro fnames hl _
      have : fnames = [] := List.eq_nil_of_length_eq_zero (Nat.le_zero.mp hl)
      subst this
      show git_hashes_go env (grouper n []) = _
      rw [grouper]
      simp [git_hashes_go]
    | succ k ih =>
      intro fnames hl htr
      show git_hashes_go env (grouper n fnames) = _
      rw [grouper]
      by_cases he : (fnames.take n).isEmpty
      · have : fnames = [] := by
          rcases fnames with _ | ⟨a, t⟩
          · rfl
          · rcases n with _ | m
            · omega
            · simp at he
        subst this
        simp [git_hashes_go]
      · rw [dif_neg he]
        have hblock := git_hashes_block_all_tracked env (fnames.take n)
          (fun f hf => htr f (List.take_subset n fnames hf))
        have hrest : git_hashes env n (fnames.drop n) =
            ((fnames.drop n).map (fun f => (f, (env.tracked f).getD "")), none) := by
          apply ih
          · have hne : fnames ≠ [] := by
              intro hcon; subst hcon; simp at he
            have : 1 ≤ fnames.length := List.length_pos.mpr hne
            simp only [List.length_drop]
            omega
          · exact fun f hf => htr f (List.drop_subset n fnames hf)
        show git_hashes_go env (fnames.take n :: grouper n (fnames.drop n)) = _
        simp only [git_hashes_go, hblock]
        rw [show git_hashes_go env (grouper n (fnames.drop n)) =
              git_hashes env n (fnames.drop n) from rfl, hrest]
        rw [← List.map_append, List.take_append_drop]
  exact fun fnames => main fnames.length fnames le_rfl

unseal ContentHashStore.grouper in
/-- C4 counterexample: with `a.py` tracked and `b.py` on disk but
untracked, batch size 1 assigns `a.py` its git identity before the second
batch's failure propagates, while batch size 2 assigns nothing (the mixed
batch fails wholesale and `str(ex)` never contains the matched message) —
the identities assigned depend on the batch size. -/
theorem C4_counterexample :
    (ContentHashStore.git_hashes envA 1 ["a.py", "b.py"]).1 ≠
      (ContentHashStore.git_hashes envA 2 ["a.py", "b.py"]).1 := by
  decide

open ContentHashStore in
/-- C4 amended: batch-size invariance holds on the batches that succeed —
when every input path is known to the identity source, `git_hashes` yields
every file, in input order, paired with its identity-source hash, for every
batch size ≥ 1. When a batch mixes known and unknown paths the whole batch
query fails and the failure propagates, so the assignment can depend on the
partition (see the counterexample). -/
theorem C4_amended_batch_invariance (env : GitEnv) (fnames : List String)
    (n m : Nat) (h1 : 1 ≤ n) (h2 : 1 ≤ m)
    (htr : ∀ f ∈ fnames, (env.tracked f).isSome) :
    git_hashes env n fnames = git_hashes env m fnames ∧
    git_hashes env n fnames =
      (fnames.map (fun f => (f, (env.tracked f).getD "")), none) := by
  have ha := git_hashes_all_tracked env n h1 fnames htr
  have hb := git_hashes_all_tracked env m h2 fnames htr
  exact ⟨ha.trans hb.symm, ha⟩

open ContentHashStore in
/-- Witness for C4 (amended): two tracked files, batch sizes 1 and 2. -/
theorem C4_amended_witness :
    git_hashes envB 1 ["a.py", "c.py"] = git_hashes envB 2 ["a.py", "c.py"] ∧
    git_hashes envB 1 ["a.py", "c.py"] =
      ([("a.py", "aaaaaaaaaaaaaaaaaaaaaaaaaaaaaaaaaaaaaaaa"),
        ("c.py", "cccccccccccccccccccccccccccccccccccccccc")], none) := by
  have h := C4_amended_batch_invariance envB ["a.py", "c.py"] 1 2
    (by decide) (by decide) (by decide)
  exact ⟨h.1, by rw [h.2]; rfl⟩

unseal ContentHashStore.grouper in
/-- C5 counterexample: a single batch (the source's batch size `128*64`)
holding tracked `a.py` and untracked-but-on-disk `b.py` yields no pairs at
all and propagates `CalledProcessError` — the unknown path does not resolve
to its content hash and the known path does not resolve to its
identity-source value, contrary to the claim. -/
theorem C5_counterexample :
    (ContentHashStore.git_hashes envA ContentHashStore.ARGMAX
        ["a.py", "b.py"]).1 = [] ∧
    (ContentHashStore.git_hashes envA ContentHashStore.ARGMAX
        ["a.py", "b.py"]).2 = some PyErr.calledProcessError ∧
    (ContentHashStore.git_hashes envA ContentHashStore.ARGMAX
        ["a.py", "b.py"]).1 ≠
      [("a.py", "aaaaaaaaaaaaaaaaaaaaaaaaaaaaaaaaaaaaaaaa"),
       ("b.py", ContentHashStore.md5_hash envA "b.py")] := by
  refine ⟨by decide, by decide, by decide⟩

open ContentHashStore in
/-- C5 amended: a batch that contains any path unknown to the identity
source fails as a whole: `git rev-parse` exits non-zero, and because the
matched text is compared against `str(ex)` — which renders only the command
and exit status, never git's stderr — the md5 fallback does not fire and
the `CalledProcessError` propagates; no path of the batch (known or
unknown) resolves to anything. -/
theorem C5_amended_mixed_batch_propagates (env : GitEnv)
    (fnames : List String) (n : Nat)
    (h0 : fnames ≠ []) (h1 : fnames.length ≤ n)
    (h2 : ∃ f ∈ fnames, env.tracked f = none)
    (h3 : strContains
        (calledProcessErrorStr
          (["/usr/bin/git", "rev-parse"] ++ fnames.map (fun f => "HEAD:" ++ f)))
        notInHeadMsg = false) :
    git_hashes env n fnames = ([], some PyErr.calledProcessError) := by
  have htake : fnames.take n = fnames := List.take_of_length_le h1
  have hdrop : fnames.drop n = [] := List.drop_eq_nil_of_le h1
  show git_hashes_go env (grouper n fnames) = _
  rw [grouper, htake, hdrop]
  rw [dif_neg (by simpa using h0)]
  rw [grouper]
  simp only [List.take_nil, List.isEmpty_nil, dite_true]
  have hall : fnames.all (fun f => (env.tracked f).isSome) = false := by
    rcases h2 with ⟨f, hf, hnone⟩
    rcases hha : fnames.all (fun f => (env.tracked f).isSome) with _ | _
    · rfl
    · exfalso
      have := List.all_eq_true.mp hha f hf
      rw [hnone] at this
      exact Bool.noConfusion this
  show git_hashes_go env [fnames] = _
  simp only [git_hashes_go, git_hashes_block, hall, Bool.false_eq_true,
    if_false, h3]

open ContentHashStore in
/-- Witness for C5 (amended): tracked `a.py` plus untracked `b.py` in one
batch of size 2. -/
theorem C5_amended_witness :
    git_hashes envA 2 ["a.py", "b.py"] = ([], some PyErr.calledProcessError) :=
  C5_amended_mixed_batch_propagates envA ["a.py", "b.py"] 2 (by decide)
    (by decide) ⟨"b.py", by decide, rfl⟩ (by decide)

open ContentHashStore in
/-- C6 (code bug): for `b.py`, which exists on disk but is not tracked in
HEAD, the `except` handler evaluates `ex.message` — an attribute Python 3's
`CalledProcessError` does not have — so `git_hash` raises `AttributeError`
instead of returning the md5 content hash; for the same reason every other
`CalledProcessError` also surfaces as `AttributeError` rather than
propagating unchanged. -/
theorem C6_git_hash_message_bug :
    envA.existsOnDisk "b.py" = true ∧ envA.tracked "b.py" = none ∧
    git_hash envA "b.py" = Except.error PyErr.attributeError ∧
    git_hash envA "b.py" ≠ Except.ok (md5_hash envA "b.py") := by
  refine ⟨rfl, rfl, rfl, fun hcon => ?_⟩
  rw [show git_hash envA "b.py" = Except.error PyErr.attributeError from rfl]
    at hcon
  exact Except.noConfusion hcon

/-!
## Claim C9 — malformed aggregator input
-/

/-- C9: for a timing-report input that does not decode as JSON, or decodes
to a report object with no `time` key (a run without timing enabled), the
aggregator prints a diagnostic message and exits the process with status 1
instead of producing a report. -/
theorem C9_malformed_input_exits (st : RepositoryTimePerRule)
    (repo : String) (input : Option JVal)
    (h : input = none ∨ ∃ fields, input = some (JVal.jobj fields) ∧
        fields.any (fun kv => kv.1 == "time") = false) :
    ∃ msg, st.times_per_file_to_times_per_rule repo input =
      ProcResult.exited 1 msg := by
  rcases h with h | ⟨fields, hin, hnone⟩
  · subst h
    exact ⟨_, rfl⟩
  · subst hin
    refine ⟨"Semgrep-core ran without the --time flag, please try again with --time set to true.", ?_⟩
    simp only [RepositoryTimePerRule.times_per_file_to_times_per_rule,
      pyInStr, hnone]

/-- Witness for C9: undecodable bytes, and a decoded report without the
`time` key. -/
theorem C9_witness :
    (∃ msg, (RepositoryTimePerRule.init "out").times_per_file_to_times_per_rule
        "repo" none = ProcResult.exited 1 msg) ∧
    (∃ msg, (RepositoryTimePerRule.init "out").times_per_file_to_times_per_rule
        "repo" (some (JVal.jobj [("results", JVal.jarr [])])) =
      ProcResult.exited 1 msg) :=
  ⟨C9_malformed_input_exits (RepositoryTimePerRule.init "out") "repo" none
      (Or.inl rfl),
   C9_malformed_input_exits (RepositoryTimePerRule.init "out") "repo"
      (some (JVal.jobj [("results", JVal.jarr [])]))
      (Or.inr ⟨[("results", JVal.jarr [])], rfl, rfl⟩)⟩

/-!
## Claim C10 — only strictly positive durations are averaged

Supporting lemmas about the dict embedding, the stable sort, the tally
loops, and the per-call state update.
-/

/-- A successful association-list lookup is a membership. -/
theorem lookupA_mem {l : List (String × β)} {k : String} {v : β}
    (h : lookupA l k = some v) : (k, v) ∈ l := by
  induction l with
  | nil => exact absurd h (by simp [lookupA])
  | cons hd t ih =>
    rw [lookupA] at h
    by_cases hk : hd.1 = k
    · rw [if_pos hk] at h
      cases h
      subst hk
      exact List.mem_cons_self hd t
    · rw [if_neg hk] at h
      exact List.mem_cons_of_mem hd (ih h)

/-- Entries after a dict assignment: an old entry or the assigned pair. -/
theorem mem_updA {l : List (String × β)} {k : String} {v : β} {p : String × β}
    (h : p ∈ updA l k v) : p ∈ l ∨ p = (k, v) := by
  induction l with
  | nil =>
    right
    simpa [updA] using h
  | cons hd t ih =>
    rw [updA] at h
    by_cases hk : hd.1 = k
    · rw [if_pos hk] at h
      rcases List.mem_cons.mp h with h | h
      · exact Or.inr h
      · exact Or.inl (List.mem_cons_of_mem hd h)
    · rw [if_neg hk] at h
      rcases List.mem_cons.mp h with h | h
      · exact Or.inl (h ▸ List.mem_cons_self hd t)
      · rcases ih h with h | h
        · exact Or.inl (List.mem_cons_of_mem hd h)
        · exact Or.inr h

/-- A `defaultdict` read is either the default or the stored value. -/
theorem getDA_cases (l : List (String × β)) (k : String) (d : β) :
    getDA l k d = d ∨ ∃ v, (k, v) ∈ l ∧ getDA l k d = v := by
  unfold getDA
  cases h : lookupA l k with
  | none => exact Or.inl rfl
  | some v => exact Or.inr ⟨v, lookupA_mem h, rfl⟩

/-- Membership through the stable insert. -/
theorem mem_insertAfterLe {le : α → α → Bool} {a x : α} :
    ∀ {l : List α}, x ∈ insertAfterLe le a l → x = a ∨ x ∈ l := by
  intro l
  induction l with
  | nil => intro h; simpa [insertAfterLe] using h
  | cons b bs ih =>
    intro h
    rw [insertAfterLe] at h
    by_cases hb : le b a
    · rw [if_pos hb] at h
      rcases List.mem_cons.mp h with h | h
      · exact Or.inr (h ▸ List.mem_cons_self b bs)
      · rcases ih h with h | h
        · exact Or.inl h
        · exact Or.inr (List.mem_cons_of_mem b h)
    · rw [if_neg hb] at h
      rcases List.mem_cons.mp h with h | h
      · exact Or.inl h
      · exact Or.inr h

/-- Membership through the stable sort. -/
theorem mem_pySorted {le : α → α → Bool} {x : α} :
    ∀ {l acc : List α},
      x ∈ l.foldl (fun acc a => insertAfterLe le a acc) acc →
        x ∈ acc ∨ x ∈ l := by
  intro l
  induction l with
  | nil => exact fun h => Or.inl h
  | cons a t ih =>
    intro acc h
    rcases ih h with h | h
    · rcases mem_insertAfterLe h with h | h
      · exact Or.inr (h ▸ List.mem_cons_self a t)
      · exact Or.inl h
    · exact Or.inr (List.mem_cons_of_mem a h)

/-- Membership through the descending sort used for the output sections. -/
theorem mem_sortPairsDesc {x : String × Rat} {l : List (String × Rat)}
    (h : x ∈ sortPairsDesc l) : x ∈ l := by
  unfold sortPairsDesc pySorted at h
  rcases mem_pySorted h with h | h
  · simp at h
  · exact h

/-- Splitting a successful `Except` bind. -/
theorem except_bind_ok {x : Except PyErr γ} {f : γ → Except PyErr δ} {b : δ}
    (h : (x >>= f) = Except.ok b) :
    ∃ a, x = Except.ok a ∧ f a = Except.ok b := by
  cases x with
  | ok a => exact ⟨a, rfl, h⟩
  | error e =>
    have hred : (Except.error e >>= f) = (Except.error e : Except PyErr δ) := rfl
    rw [hred] at h
    exact Except.noConfusion h

/-- Provenance through the positive-entry tally: every entry of the result
either was already present or is justified by a strictly positive parse
time at an index whose rule id is the entry's key. -/
theorem tallyPos_mem (ids : List String) (pts : List Rat) :
    ∀ (idx : Nat) (nz nz' : List (String × TotalTimeAndTargetNum)),
      tallyPos ids idx pts nz = Except.ok nz' →
      ∀ p ∈ nz', p ∈ nz ∨
        ∃ (j : Nat) (pt : Rat), pts[j]? = some pt ∧ 0 < pt ∧
          ids[idx + j]? = some p.1 := by
  induction pts with
  | nil =>
    intro idx nz nz' h p hp
    simp only [tallyPos] at h
    cases h
    exact Or.inl hp
  | cons pt rest ih =>
    intro idx nz nz' h p hp
    simp only [tallyPos] at h
    by_cases hpos : 0 < pt
    · rw [if_pos hpos] at h
      cases hrid : ids[idx]? with
      | none =>
        rw [hrid] at h
        exact absurd h (by simp)
      | some rid =>
        rw [hrid] at h
        rcases ih (idx + 1) _ nz' h p hp with hin | ⟨j, pt', h1, h2, h3⟩
        · rcases mem_updA hin with hin | heq
          · exact Or.inl hin
          · subst heq
            refine Or.inr ⟨0, pt, by simp, hpos, ?_⟩
            rw [Nat.add_zero, hrid]
        · refine Or.inr ⟨j + 1, pt', by simpa using h1, h2, ?_⟩
          rw [show idx + (j + 1) = idx + 1 + j by omega]
          exact h3
    · rw [if_neg hpos] at h
      rcases ih (idx + 1) nz nz' h p hp with hin | ⟨j, pt', h1, h2, h3⟩
      · exact Or.inl hin
      · refine Or.inr ⟨j + 1, pt', by simpa using h1, h2, ?_⟩
        rw [show idx + (j + 1) = idx + 1 + j by omega]
        exact h3

/-- The positive-entry tally keeps every target count at least 1: each new
entry starts from the zero default or an existing counted entry and adds a
count of one. -/
theorem tallyPos_counts (ids : List String) (pts : List Rat) :
    ∀ (idx : Nat) (nz nz' : List (String × TotalTimeAndTargetNum)),
      tallyPos ids idx pts nz = Except.ok nz' →
      (∀ p ∈ nz, 1 ≤ p.2.num_targets) →
      ∀ p ∈ nz', 1 ≤ p.2.num_targets := by
  induction pts with
  | nil =>
    intro idx nz nz' h hc p hp
    simp only [tallyPos] at h
    cases h
    exact hc p hp
  | cons pt rest ih =>
    intro idx nz nz' h hc p hp
    simp only [tallyPos] at h
    by_cases hpos : 0 < pt
    · rw [if_pos hpos] at h
      cases hrid : ids[idx]? with
      | none =>
        rw [hrid] at h
        exact absurd h (by simp)
      | some rid =>
        rw [hrid] at h
        refine ih (idx + 1) _ nz' h ?_ p hp
        intro q hq
        rcases mem_updA hq with hq | hq
        · exact hc q hq
        · subst hq
          rcases getDA_cases nz rid ⟨0, 0⟩ with hd | ⟨v, hv, hd⟩
          · rw [hd]
            simp only [TotalTimeAndTargetNum.add]
            omega
          · have := hc (rid, v) hv
            rw [hd]
            simp only [TotalTimeAndTargetNum.add] at *
            omega
    · rw [if_neg hpos] at h
      exact ih (idx + 1) nz nz' h hc p hp

/-- Positivity witnesses are stable under extending the target list. -/
theorem THP_cons {ids : List String} {t : JVal} {ts : List JVal} {r : String}
    (h : TargetsHavePositive ids ts r) : TargetsHavePositive ids (t :: ts) r := by
  rcases h with ⟨t', ht', rest⟩
  exact ⟨t', List.mem_cons_of_mem t ht', rest⟩

/-- Provenance through the target loop: every tallied entry either was
already present or is justified by a positive parse time of one of the
targets. -/
theorem processTargets_mem (ids : List String) :
    ∀ (ts : List JVal) (total : List Rat)
      (nz : List (String × TotalTimeAndTargetNum))
      (res : List Rat × List (String × TotalTimeAndTargetNum)),
      processTargets ids ts (total, nz) = Except.ok res →
      ∀ p ∈ res.2, p ∈ nz ∨ TargetsHavePositive ids ts p.1 := by
  intro ts
  induction ts with
  | nil =>
    intro total nz res h p hp
    simp only [processTargets] at h
    cases h
    exact Or.inl hp
  | cons t ts' ih =>
    intro total nz res h p hp
    simp only [processTargets] at h
    rcases except_bind_ok h with ⟨pts, hpts, h2⟩
    rcases except_bind_ok h2 with ⟨nz1, htally, hrec⟩
    rcases ih _ nz1 res hrec p hp with hin | hthp
    · rcases tallyPos_mem ids pts 0 nz nz1 htally p hin with hin | ⟨j, pt, h1, hpos, h3⟩
      · exact Or.inl hin
      · exact Or.inr ⟨t, List.mem_cons_self t ts', pts, hpts, j, pt, h1, hpos,
          by simpa using h3⟩
    · exact Or.inr (THP_cons hthp)

/-- The target loop keeps every tallied count at least 1. -/
theorem processTargets_counts (ids : List String) :
    ∀ (ts : List JVal) (total : List Rat)
      (nz : List (String × TotalTimeAndTargetNum))
      (res : List Rat × List (String × TotalTimeAndTargetNum)),
      processTargets ids ts (total, nz) = Except.ok res →
      (∀ p ∈ nz, 1 ≤ p.2.num_targets) →
      ∀ p ∈ res.2, 1 ≤ p.2.num_targets := by
  intro ts
  induction ts with
  | nil =>
    intro total nz res h hc p hp
    simp only [processTargets] at h
    cases h
    exact hc p hp
  | cons t ts' ih =>
    intro total nz res h hc p hp
    simp only [processTargets] at h
    rcases except_bind_ok h with ⟨pts, hpts, h2⟩
    rcases except_bind_ok h2 with ⟨nz1, htally, hrec⟩
    exact ih _ nz1 res hrec (tallyPos_counts ids pts 0 nz nz1 htally hc) p hp

/-- Merging the zero-free tally into the global dict: every resulting
entry keeps a count at least 1 and its key comes from the old dict or from
the tally. -/
theorem mergeTally_mem :
    ∀ (nz rt : List (String × TotalTimeAndTargetNum)),
      (∀ p ∈ rt, 1 ≤ p.2.num_targets) →
      (∀ p ∈ nz, 1 ≤ p.2.num_targets) →
      ∀ q ∈ mergeTally rt nz, 1 ≤ q.2.num_targets ∧
        (q.1 ∈ rt.map Prod.fst ∨ q.1 ∈ nz.map Prod.fst) := by
  intro nz
  induction nz with
  | nil =>
    intro rt hrt _ q hq
    exact ⟨hrt q hq, Or.inl (List.mem_map.mpr ⟨q, hq, rfl⟩)⟩
  | cons hd tl ih =>
    intro rt hrt hnz q hq
    have hstep : mergeTally rt (hd :: tl) =
        mergeTally (updA rt hd.1 ((getDA rt hd.1 ⟨0, 0⟩).add hd.2)) tl := rfl
    rw [hstep] at hq
    have hrt' : ∀ p ∈ updA rt hd.1 ((getDA rt hd.1 ⟨0, 0⟩).add hd.2),
        1 ≤ p.2.num_targets := by
      intro p hp
      rcases mem_updA hp with hp | hp
      · exact hrt p hp
      · subst hp
        have h1 : 1 ≤ hd.2.num_targets := hnz hd (List.mem_cons_self hd tl)
        rcases getDA_cases rt hd.1 ⟨0, 0⟩ with hdef | ⟨v, hv, hdef⟩
        · rw [hdef]
          simp only [TotalTimeAndTargetNum.add]
          omega
        · have h2 := hrt (hd.1, v) hv
          rw [hdef]
          simp only [TotalTimeAndTargetNum.add] at *
          omega
    rcases ih _ hrt' (fun p hp => hnz p (List.mem_cons_of_mem hd hp)) q hq
      with ⟨hc, hk⟩
    refine ⟨hc, ?_⟩
    rcases hk with hk | hk
    · rcases List.mem_map.mp hk with ⟨p, hp, hfst⟩
      rcases mem_updA hp with hp | hp
      · exact Or.inl (List.mem_map.mpr ⟨p, hp, hfst⟩)
      · subst hp
        refine Or.inr ?_
        simp only [List.map_cons]
        exact hfst ▸ List.mem_cons_self hd.1 (tl.map Prod.fst)
    · refine Or.inr ?_
      simp only [List.map_cons]
      exact List.mem_cons_of_mem hd.1 hk

/-- Characterisation of a successful `agg_body` run: the extractions
succeed and the global tally is the merge of the old one with the
report's zero-free tally. -/
theorem agg_body_ok {st st' : RepositoryTimePerRule} {repo : String}
    {tpf : JVal} (h : agg_body st repo tpf = Except.ok st') :
    ∃ ids targets acc,
      extract_rule_ids tpf = Except.ok ids ∧
      extract_targets tpf = Except.ok targets ∧
      processTargets ids targets (List.replicate ids.length 0, []) =
        Except.ok acc ∧
      st'.rules_to_total_time_num_files =
        mergeTally st.rules_to_total_time_num_files acc.2 := by
  unfold agg_body at h
  rcases except_bind_ok h with ⟨ids, h1, h⟩
  rcases except_bind_ok h with ⟨targets, h2, h⟩
  rcases except_bind_ok h with ⟨acc, h3, h⟩
  cases h
  exact ⟨ids, targets, acc, h1, h2, h3, rfl⟩

/-- One normally returning aggregator call: every entry of the resulting
global tally has a count at least 1, and its rule either was already
tallied or receives a strictly positive duration in this report. -/
theorem times_call_step {st st' : RepositoryTimePerRule} {repo : String}
    {inp : Option JVal}
    (h : st.times_per_file_to_times_per_rule repo inp = ProcResult.ok st')
    (hc : ∀ p ∈ st.rules_to_total_time_num_files, 1 ≤ p.2.num_targets) :
    ∀ q ∈ st'.rules_to_total_time_num_files,
      1 ≤ q.2.num_targets ∧
      (q.1 ∈ st.rules_to_total_time_num_files.map Prod.fst ∨
        ReportHasPositive q.1 inp) := by
  cases inp with
  | none =>
    exact absurd h
      (by simp [RepositoryTimePerRule.times_per_file_to_times_per_rule])
  | some tpf =>
    rw [RepositoryTimePerRule.times_per_file_to_times_per_rule] at h
    cases hin : pyInStr "time" tpf with
    | error e =>
      rw [hin] at h
      exact absurd h (by simp)
    | ok b =>
      rw [hin] at h
      cases b with
      | false => exact absurd h (by simp)
      | true =>
        cases hbody : agg_body st repo tpf with
        | error e =>
          rw [hbody] at h
          exact absurd h (by simp)
        | ok st'' =>
          rw [hbody] at h
          cases h
          rcases agg_body_ok hbody with ⟨ids, targets, acc, h1, h2, h3, h4⟩
          intro q hq
          rw [h4] at hq
          have hnzc : ∀ p ∈ acc.2, 1 ≤ p.2.num_targets :=
            processTargets_counts ids targets _ [] acc h3 (by simp)
          rcases mergeTally_mem acc.2 st.rules_to_total_time_num_files hc
            hnzc q hq with ⟨hcnt, hkey⟩
          refine ⟨hcnt, ?_⟩
          rcases hkey with hkey | hkey
          · exact Or.inl hkey
          · rcases List.mem_map.mp hkey with ⟨p, hp, hfst⟩
            rcases processTargets_mem ids targets _ [] acc h3 p hp with hemp | hthp
            · simp at hemp
            · exact Or.inr ⟨tpf, rfl, ids, targets, h1, h2, hfst ▸ hthp⟩

/-- Invariant of the whole processing run: every tallied rule has count at
least 1 and either was tallied in the starting state or got a strictly
positive duration in one of the processed reports. -/
theorem runReports_inv :
    ∀ (inputs : List (String × Option JVal))
      (st final : RepositoryTimePerRule),
      runReports st inputs = some final →
      (∀ p ∈ st.rules_to_total_time_num_files, 1 ≤ p.2.num_targets) →
      ∀ q ∈ final.rules_to_total_time_num_files,
        1 ≤ q.2.num_targets ∧
        (q.1 ∈ st.rules_to_total_time_num_files.map Prod.fst ∨
          ∃ inp ∈ inputs, ReportHasPositive q.1 inp.2) := by
  intro inputs
  induction inputs with
  | nil =>
    intro st final h hc q hq
    rw [runReports] at h
    cases h
    exact ⟨hc q hq, Or.inl (List.mem_map.mpr ⟨q, hq, rfl⟩)⟩
  | cons i rest ih =>
    intro st final h hc q hq
    obtain ⟨repo, inp⟩ := i
    rw [runReports] at h
    cases hcall : st.times_per_file_to_times_per_rule repo inp with
    | ok st1 =>
      rw [hcall] at h
      have hc1 : ∀ p ∈ st1.rules_to_total_time_num_files,
          1 ≤ p.2.num_targets :=
        fun p hp => (times_call_step hcall hc p hp).1
      rcases ih st1 final h hc1 q hq with ⟨hcnt, hkey⟩
      refine ⟨hcnt, ?_⟩
      rcases hkey with hkey | hkey
      · rcases List.mem_map.mp hkey with ⟨p, hp, hfst⟩
        rcases (times_call_step hcall hc p hp).2 with hold | hrhp
        · exact Or.inl (hfst ▸ hold)
        · exact Or.inr ⟨(repo, inp), List.mem_cons_self _ rest, hfst ▸ hrhp⟩
      · rcases hkey with ⟨inp', hinp', hrhp⟩
        exact Or.inr ⟨inp', List.mem_cons_of_mem _ hinp', hrhp⟩
    | exited code msg =>
      rw [hcall] at h
      exact absurd h (by simp)
    | raised e =>
      rw [hcall] at h
      exact absurd h (by simp)

/-- C10: the global per-rule average counts only strictly positive
per-file durations. A zero (or negative) duration is skipped by the tally
outright — it contributes to neither the summed time nor the target count
— so every rule in the `time_per_rule_average` section of the output has a
target count of at least 1 (the average never divides by zero) and
received a strictly positive duration in at least one processed report; a
rule with no positive duration anywhere never appears. -/
theorem C10_positive_only_average (inputs : List (String × Option JVal))
    (out : String) (final : RepositoryTimePerRule)
    (h : runReports (RepositoryTimePerRule.init out) inputs = some final) :
    (∀ (ids : List String) (idx : Nat) (pts : List Rat)
        (nz : List (String × TotalTimeAndTargetNum)),
      tallyPos ids idx ((0 : Rat) :: pts) nz = tallyPos ids (idx + 1) pts nz) ∧
    ∀ q ∈ final.calculate_time_per_rule,
      ∃ tt, (q.1, tt) ∈ final.rules_to_total_time_num_files ∧
        q.2 = tt.return_average ∧ 1 ≤ tt.num_targets ∧
        ∃ inp ∈ inputs, ReportHasPositive q.1 inp.2 := by
  constructor
  · intro ids idx pts nz
    simp [tallyPos]
  · intro q hq
    rw [RepositoryTimePerRule.calculate_time_per_rule] at hq
    rcases List.mem_map.mp (mem_sortPairsDesc hq) with ⟨kv, hkv, hqe⟩
    have hq1 : q.1 = kv.1 := by rw [← hqe]
    have hq2 : q.2 = kv.2.return_average := by rw [← hqe]
    rcases runReports_inv inputs (RepositoryTimePerRule.init out) final h
      (by simp [RepositoryTimePerRule.init]) kv hkv with ⟨hcnt, hkey⟩
    rcases hkey with hkey | ⟨inp, hinp, hrhp⟩
    · simp [RepositoryTimePerRule.init] at hkey
    · exact ⟨kv.2, hq1 ▸ hkv, hq2, hcnt, inp, hinp, hq1 ▸ hrhp⟩

/-- A well-formed timing report: two rules, one target, durations 2 and 0
— only the first rule receives a positive duration. -/
def sampleReport : JVal :=
  JVal.jobj
    [("time", JVal.jobj
      [("rules", JVal.jarr [JVal.jobj [("id", JVal.jstr "r1")],
                            JVal.jobj [("id", JVal.jstr "r2")]]),
       ("targets", JVal.jarr
         [JVal.jobj [("parse_times",
           JVal.jarr [JVal.jnum 2, JVal.jnum 0])]])])]

/-- The aggregator state after processing `sampleReport`. -/
def sampleFinal : RepositoryTimePerRule :=
  (runReports (RepositoryTimePerRule.init "out")
    [("repoA", some sampleReport)]).getD (RepositoryTimePerRule.init "out")

/-- Witness for C10 at the concrete run over `sampleReport`. -/
theorem C10_witness :
    runReports (RepositoryTimePerRule.init "out")
      [("repoA", some sampleReport)] = some sampleFinal ∧
    ((∀ (ids : List String) (idx : Nat) (pts : List Rat)
        (nz : List (String × TotalTimeAndTargetNum)),
      tallyPos ids idx ((0 : Rat) :: pts) nz = tallyPos ids (idx + 1) pts nz) ∧
    ∀ q ∈ sampleFinal.calculate_time_per_rule,
      ∃ tt, (q.1, tt) ∈ sampleFinal.rules_to_total_time_num_files ∧
        q.2 = tt.return_average ∧ 1 ≤ tt.num_targets ∧
        ∃ inp ∈ [("repoA", some sampleReport)],
          ReportHasPositive q.1 inp.2) :=
  ⟨rfl, C10_positive_only_average [("repoA", some sampleReport)] "out"
    sampleFinal rfl⟩
